import Mathlib

/-!
Shallow embedding of `rd-agent/src/bandit/mem_hog.rs` (the "memory bandwidth
hog" core) and proofs about it.

Modelling conventions:
* Rust `f64` values are modelled by exact rationals (`ℚ`); `f64::round`
  (round half away from zero) is `roundQ`, and the saturating Rust cast
  `as usize` of a non-negative float is `ratToUsize` (truncation toward
  zero, negative values saturate to 0).
* `usize` is `ℕ`; overflow does not occur at the magnitudes involved
  (sizes are far below `2^64`), except where noted for the `nr_readers = 0`
  division, where the defined Rust saturating-cast semantics of `inf`/`NaN`
  are spelled out explicitly.
* Wall-clock time (`SystemTime`) is a rational timestamp passed in
  explicitly; `duration_since` is the clamped difference (zero when the
  clock went backward), exactly as in `DebtTracker::update`.
* The external page size `*PAGE_SIZE` is an unspecified positive constant
  and appears as a parameter `ps`.
* Sleeping (`wait_prog_state`) is modelled by returning the requested
  sleep duration.
-/

namespace MemHog

/-- `const ANON_SIZE_CLICK: usize = 1 << 30;` -/
def ANON_SIZE_CLICK : ℕ := 2 ^ 30

/-- `const MAX_WRITE: usize = 1 << 20;` -/
def MAX_WRITE : ℕ := 2 ^ 20

/-- `usize::MAX` on a 64-bit target. -/
def USIZE_MAX : ℕ := 2 ^ 64 - 1

/-- Rust `f64::round`: round half away from zero, modelled on `ℚ`. -/
def roundQ (q : ℚ) : ℤ := if 0 ≤ q then ⌊q + 1 / 2⌋ else ⌈q - 1 / 2⌉

/-- Rust `as usize` cast of a (finite) float: truncate toward zero,
saturating at 0 for negative values. -/
def ratToUsize (q : ℚ) : ℕ := if q < 0 then 0 else ⌊q⌋.toNat

theorem roundQ_nonneg (q : ℚ) (h : 0 ≤ q) : roundQ q = ⌊q + 1 / 2⌋ := by
  simp [roundQ, h]

theorem roundQ_mono {x y : ℚ} (h : x ≤ y) : roundQ x ≤ roundQ y := by
  unfold roundQ
  by_cases hx : 0 ≤ x
  · have hy : 0 ≤ y := le_trans hx h
    simp only [hx, hy, if_true]
    exact Int.floor_le_floor (by linarith)
  · by_cases hy : 0 ≤ y
    · simp only [hx, hy, if_true, if_false]
      have h1 : ⌈x - 1 / 2⌉ ≤ 0 := by
        have : x - 1 / 2 ≤ 0 := by push_neg at hx; linarith
        exact Int.ceil_le.mpr (by exact_mod_cast this)
      have h2 : (0 : ℤ) ≤ ⌊y + 1 / 2⌋ := by
        apply Int.floor_nonneg.mpr
        linarith
      omega
    · simp only [hx, hy, if_false]
      exact Int.ceil_le_ceil (by linarith)

theorem roundQ_eval (q : ℚ) (z : ℤ) (h0 : 0 ≤ q) (h1 : (z : ℚ) ≤ q + 1 / 2)
    (h2 : q + 1 / 2 < z + 1) : roundQ q = z := by
  rw [roundQ_nonneg _ h0]
  exact Int.floor_eq_iff.mpr ⟨h1, h2⟩

theorem roundQ_intCast (n : ℕ) : roundQ (n : ℚ) = n := by
  rw [roundQ_nonneg _ (by positivity)]
  have h1 : ((n : ℤ) : ℚ) ≤ (n : ℚ) + 1 / 2 := by push_cast; linarith
  have h2 : (n : ℚ) + 1 / 2 < (n : ℤ) + 1 := by push_cast; linarith
  exact Int.floor_eq_iff.mpr ⟨h1, h2⟩

/-- `struct DebtTracker` from mem_hog.rs: debt-based pacing ledger. -/
structure DebtTracker where
  debt : ℚ
  max_debt : ℚ
  loss : ℚ
  last_at : ℚ
deriving DecidableEq

namespace DebtTracker

/-- `DebtTracker::new(max_debt)`: zero debt and loss, clock at `now`. -/
def new (max_debt now : ℚ) : DebtTracker :=
  { debt := 0, max_debt := max_debt, loss := 0, last_at := now }

/-- `now.duration_since(self.last_at)` as seconds, zero on clock going
backward (the `Err(_) => 0.0` arm). -/
def elapsed (dt : DebtTracker) (now : ℚ) : ℚ :=
  if dt.last_at ≤ now then now - dt.last_at else 0

/-- `DebtTracker::update`: add elapsed time to debt, move any excess over
`max_debt` into `loss`, clamp debt, return the resulting debt. -/
def update (dt : DebtTracker) (now : ℚ) : DebtTracker × ℚ :=
  let d := dt.debt + dt.elapsed now
  let dt1 : DebtTracker :=
    if d > dt.max_debt then
      { debt := dt.max_debt, max_debt := dt.max_debt,
        loss := dt.loss + (d - dt.max_debt), last_at := now }
    else
      { debt := d, max_debt := dt.max_debt, loss := dt.loss, last_at := now }
  (dt1, dt1.debt)

/-- `DebtTracker::pay`: `self.debt = (self.debt - amt).max(0.0)`. -/
def pay (dt : DebtTracker) (amt : ℚ) : DebtTracker :=
  { dt with debt := max (dt.debt - amt) 0 }

end DebtTracker

/-- One call made against a `DebtTracker` (for stating properties of
arbitrary call sequences). -/
inductive LedgerOp where
  | upd (now : ℚ)
  | pay (amt : ℚ)
deriving DecidableEq

/-- Run a sequence of `update`/`pay` calls against a tracker. -/
def runOps (dt : DebtTracker) : List LedgerOp → DebtTracker
  | [] => dt
  | LedgerOp.upd now :: rest => runOps (dt.update now).1 rest
  | LedgerOp.pay amt :: rest => runOps (dt.pay amt) rest

/-- Result of `debt_bps_to_nr_pages_or_sleep`: `None` in the source means a
sleep was performed (we record its duration); `Some n` means `n` pages. -/
inductive PaceResult where
  | sleep (secs : ℚ)
  | work (nrPages : ℕ)
deriving DecidableEq

/-- `debt_bps_to_nr_pages_or_sleep(debt, bps)` with external page size `ps`:
`bytes = (debt * bps as f64).round() as usize`; below one page sleep
`ps / bps` seconds, otherwise `min(bytes, MAX_WRITE) / ps` pages. -/
def debt_bps_to_nr_pages_or_sleep (ps : ℕ) (debt : ℚ) (bps : ℕ) : PaceResult :=
  let bytes : ℕ := (roundQ (debt * (bps : ℚ))).toNat
  if bytes < ps then
    PaceResult.sleep ((ps : ℚ) / (bps : ℚ))
  else
    PaceResult.work (min bytes MAX_WRITE / ps)

/-! ### Writer: shared state, arena growth, observation points -/

/-- The writer-visible shared state: arena size in bytes (`st.aa.size()`)
and the high-water written-page counter (`st.wpage_pos`). -/
structure WState where
  size : ℕ
  wpage : ℕ
deriving DecidableEq

/-- The arena size installed by the growth path of `writer`:
`((end_page * *PAGE_SIZE) + ANON_SIZE_CLICK - 1) / ANON_SIZE_CLICK * ANON_SIZE_CLICK`. -/
def growSize (ps endPage : ℕ) : ℕ :=
  ((endPage * ps) + ANON_SIZE_CLICK - 1) / ANON_SIZE_CLICK * ANON_SIZE_CLICK

/-- The grow-if-needed step of one writer iteration: resize exactly when
`st.aa.size() < end_page * *PAGE_SIZE`, leaving `wpage_pos` untouched. -/
def growIfNeeded (ps : ℕ) (s : WState) (endPage : ℕ) : WState :=
  if s.size < endPage * ps then { size := growSize ps endPage, wpage := s.wpage }
  else s

/-- One full writer iteration (given the page quantum `q` produced by
`debt_bps_to_nr_pages_or_sleep`): grow if needed, fill pages, then store
`end_page` into `wpage_pos`. -/
def writerIter (ps : ℕ) (s : WState) (q : ℕ) : WState :=
  let endPage := s.wpage + q
  let s1 := growIfNeeded ps s endPage
  { size := s1.size, wpage := endPage }

/-- The states observable by a concurrent reader during one writer
iteration: at entry (counter and size unchanged), after the growth step
(counter unchanged, size possibly grown), and after the counter store. -/
def writerIterObs (ps : ℕ) (s : WState) (q : ℕ) : List WState :=
  [s, growIfNeeded ps s (s.wpage + q), writerIter ps s q]

/-- All observable states along a sequence of writer iterations with page
quanta `qs`. -/
def writerTraceObs (ps : ℕ) (s : WState) : List ℕ → List WState
  | [] => [s]
  | q :: qs => writerIterObs ps s q ++ writerTraceObs ps (writerIter ps s q) qs

/-- The high-water invariant on the shared state. -/
def WInv (ps : ℕ) (s : WState) : Prop := s.wpage * ps ≤ s.size

instance (ps : ℕ) (s : WState) : Decidable (WInv ps s) := by
  unfold WInv; infer_instance

/-- The initial shared state built by `bandit_mem_hog`:
`AnonArea::new(ANON_SIZE_CLICK, ..)` and `wpage_pos = 0`. -/
def initWState : WState := { size := ANON_SIZE_CLICK, wpage := 0 }

/-! ### Reader windowing -/

/-- Window boundary `i` of `N` at high-water page `T`: the source computes
`section = 1.0 / nr_readers`, `range = (i * section, (i + 1) * section)` and
then `((total_pages as f64 * range).round() as usize).min(total_pages)`. -/
def bnd (T N i : ℕ) : ℕ :=
  min ((roundQ ((T : ℚ) * ((i : ℚ) * (1 / (N : ℚ))))).toNat) T

/-- `nr_range_pages` for reader `i` of `N` at high-water page `T`. -/
def nrw (T i N : ℕ) : ℕ := bnd T N (i + 1) - bnd T N i

/-- The indices accessed by the inner read loop over window
`[a, a + nr)` starting at cursor `p` for `q` accesses, paired with the
cursor value at the moment of each access (`page_range.0 + page_pos`
is accessed, then `page_pos = (page_pos + 1) % nr_range_pages`); also
returns the final cursor. -/
def readLoop (a nr : ℕ) : ℕ → ℕ → List (ℕ × ℕ) × ℕ
  | p, 0 => ([], p)
  | p, q + 1 =>
    let rest := readLoop a nr ((p + 1) % nr) q
    ((a + p, p) :: rest.1, rest.2)

/-- One reader iteration body (after the quantum `q` has been produced):
compute the window from the current high-water `T`; if non-empty run the
read loop, else skip. Returns the accesses (index, cursor-at-access) and
the final cursor. -/
def readerIter (i N T p q : ℕ) : List (ℕ × ℕ) × ℕ :=
  let a := bnd T N i
  let nr := nrw T i N
  if 0 < nr then readLoop a nr p q else ([], p)

/-- All accesses over a sequence of reader iterations, tagged with the
high-water value `T` observed in that iteration: entries are
`(T, index, cursor-at-access)`. Each list element of `iters` is an
iteration `(T, q)`. -/
def readerTraceAcc (i N : ℕ) (p : ℕ) : List (ℕ × ℕ) → List (ℕ × ℕ × ℕ)
  | [] => []
  | (T, q) :: rest =>
    (readerIter i N T p q).1.map (fun a => (T, a)) ++
      readerTraceAcc i N (readerIter i N T p q).2 rest

/-- One full reader iteration including the pacing ledger, for the
empty-window frame-effect claim: `update`, quantum sizing, window
computation, read loop (or skip), unconditional `pay`. Returns the tracker
after the iteration, the tracker state right after `update`, the final
cursor and the accesses. A sleep outcome leaves everything but the tracker
unchanged (the `continue` arm). -/
def readerLedgerIter (ps i N rbps : ℕ) (dt : DebtTracker) (now : ℚ) (T p : ℕ) :
    DebtTracker × DebtTracker × ℕ × List (ℕ × ℕ) :=
  let u := dt.update now
  match debt_bps_to_nr_pages_or_sleep ps u.2 rbps with
  | PaceResult.sleep _ => (u.1, u.1, p, [])
  | PaceResult.work q =>
    let r := readerIter i N T p q
    ((u.1).pay (((q * ps : ℕ) : ℚ) / (rbps : ℚ)), u.1, r.2, r.1)

/-! ### Orchestrator spawn plan -/

/-- A thread spawned by `bandit_mem_hog`. -/
inductive ThreadKind where
  | writer
  | reader (idx : ℕ)
deriving DecidableEq

/-- `(rbps as f64 / args.nr_readers as f64).ceil() as usize`, with the
defined Rust semantics of the degenerate cases spelled out: for
`nr_readers = 0` the division yields `inf` (cast saturates to
`usize::MAX`) when `rbps > 0` and `NaN` (cast yields 0) when `rbps = 0`. -/
def perReaderRate (rbps nrReaders : ℕ) : ℕ :=
  if nrReaders = 0 then (if rbps = 0 then 0 else USIZE_MAX)
  else (⌈(rbps : ℚ) / (nrReaders : ℚ)⌉).toNat

/-- The threads spawned by `bandit_mem_hog` given the resolved rates: one
writer when `wbps > 0`, and `nr_readers` readers when the per-reader rate
is positive. -/
def spawnPlan (wbps rbps nrReaders : ℕ) : List ThreadKind :=
  (if wbps > 0 then [ThreadKind.writer] else []) ++
    (if perReaderRate rbps nrReaders > 0 then
      (List.range nrReaders).map ThreadKind.reader
    else [])

/-! ### Bandwidth spec parsing (`parse_bps`) -/

/-- Value of a non-empty all-digit character list, `none` otherwise. -/
def digitsVal (l : List Char) : Option ℕ :=
  if l ≠ [] ∧ l.all Char.isDigit then
    some (l.foldl (fun a c => a * 10 + (c.toNat - 48)) 0)
  else none

/-- Split a character list at the first `.`, if any. -/
def splitDot : List Char → List Char × Option (List Char)
  | [] => ([], none)
  | c :: rest =>
    if c = '.' then ([], some rest)
    else
      let r := splitDot rest
      (c :: r.1, r.2)

/-- Modelled from the spec: the Rust `str::parse::<f64>` used on the
percentage prefix (the parser itself lives outside this file's source).
Modelled as exact decimal notation `digits` or `digits.digits`; the spec
only requires "parse the numeric prefix as a floating-point percentage". -/
def parseF64 (l : List Char) : Option ℚ :=
  match splitDot l with
  | (ip, none) => (digitsVal ip).map (fun n => (n : ℚ))
  | (ip, some fp) =>
    match digitsVal ip, digitsVal fp with
    | some n, some f => some ((n : ℚ) + (f : ℚ) / ((10 : ℚ) ^ fp.length))
    | _, _ => none

/-- Modelled from the spec: `util::parse_size`, "parse a human-readable
byte-size string to an integer" (its source is outside this file). Modelled
as plain decimal; size suffixes are not needed by any claim. -/
def parse_size (s : String) : Option ℕ := digitsVal s.data

/-- First environment pair whose key matches (`std::env::vars` scan). -/
def envFind (env : List (String × String)) (key : String) : Option String :=
  match env with
  | [] => none
  | (k, v) :: rest => if k = key then some v else envFind rest key

/-- `parse_bps(input, base_env_key)` against an explicit environment: a
trailing `%` selects the percentage path (parse the prefix, look up and
parse the baseline, return `baseline * pct / 100` cast to `usize`),
otherwise parse the token as a size directly. -/
def parse_bps (input baseEnvKey : String) (env : List (String × String)) :
    Except String ℕ :=
  if input.data.getLast? = some '%' then
    match parseF64 input.data.dropLast with
    | none => Except.error ("failed to parse " ++ input)
    | some pct =>
      match envFind env baseEnvKey with
      | some v =>
        match parse_size v with
        | some base => Except.ok (ratToUsize ((base : ℚ) * pct / 100))
        | none => Except.error ("failed to parse " ++ v)
      | none =>
        Except.error ("percentage specified but environment variable " ++
          baseEnvKey ++ " not found")
  else
    match parse_size input with
    | some n => Except.ok n
    | none => Except.error ("failed to parse " ++ input)

/-- Whether an `Except` result is a success. -/
def exceptOk {ε α : Type} : Except ε α → Bool
  | Except.ok _ => true
  | Except.error _ => false

/-! ### Ledger lemmas -/

theorem update_loss_ge (dt : DebtTracker) (now : ℚ) :
    dt.loss ≤ (dt.update now).1.loss := by
  unfold DebtTracker.update
  dsimp only
  split
  · rename_i h
    dsimp only
    linarith
  · exact le_refl _

theorem pay_loss_eq (dt : DebtTracker) (amt : ℚ) :
    (dt.pay amt).loss = dt.loss := rfl

theorem runOps_loss_mono (ops : List LedgerOp) :
    ∀ dt : DebtTracker, dt.loss ≤ (runOps dt ops).loss := by
  induction ops with
  | nil => intro dt; exact le_refl _
  | cons op rest ih =>
    intro dt
    cases op with
    | upd now =>
      calc dt.loss ≤ (dt.update now).1.loss := update_loss_ge dt now
        _ ≤ (runOps (dt.update now).1 rest).loss := ih _
    | pay amt =>
      calc dt.loss = (dt.pay amt).loss := (pay_loss_eq dt amt).symm
        _ ≤ (runOps (dt.pay amt) rest).loss := ih _

/-- C3: `update()` adds the elapsed wall-clock time (clamped to zero when
the clock went backward, which is built into `elapsed`) to the debt, clamps
the result at `max_debt` moving the exact excess into `loss`, returns a
value never exceeding `max_debt`; and `loss` is monotonically
non-decreasing across any sequence of `update`/`pay` calls. -/
theorem update_clamps_and_loss_monotone (dt : DebtTracker) (now : ℚ)
    (hmax : 0 ≤ dt.max_debt) :
    (dt.update now).2 = min (dt.debt + dt.elapsed now) dt.max_debt ∧
    (dt.update now).2 ≤ dt.max_debt ∧
    (dt.update now).1.debt = (dt.update now).2 ∧
    (dt.update now).1.loss =
      dt.loss + max (dt.debt + dt.elapsed now - dt.max_debt) 0 ∧
    ∀ ops : List LedgerOp, dt.loss ≤ (runOps dt ops).loss := by
  unfold DebtTracker.update
  dsimp only
  split
  · rename_i h
    refine ⟨(min_eq_right (by linarith)).symm, le_refl _, rfl, ?_, fun ops => runOps_loss_mono ops dt⟩
    dsimp only
    rw [max_eq_left (by linarith)]
  · rename_i h
    push_neg at h
    refine ⟨(min_eq_left h).symm, h, rfl, ?_, fun ops => runOps_loss_mono ops dt⟩
    dsimp only
    rw [max_eq_right (by linarith)]
    ring

/-- Closed instance of `update_clamps_and_loss_monotone`. -/
theorem update_clamps_witness :
    (0 : ℚ) ≤ ({ debt := 1, max_debt := 3, loss := 0, last_at := 2 } :
        DebtTracker).max_debt ∧
    (({ debt := 1, max_debt := 3, loss := 0, last_at := 2 } :
        DebtTracker).update 7).2 =
      min ((1 : ℚ) + ({ debt := 1, max_debt := 3, loss := 0, last_at := 2 } :
        DebtTracker).elapsed 7) 3 :=
  ⟨by norm_num,
   (update_clamps_and_loss_monotone
      { debt := 1, max_debt := 3, loss := 0, last_at := 2 } 7
      (by norm_num)).1⟩

/-- C7: `pay(amt)` sets the debt to `max(debt - amt, 0)`, never drives it
below zero, and leaves `loss` and `max_debt` untouched. -/
theorem pay_floors_at_zero (dt : DebtTracker) (amt : ℚ) :
    (dt.pay amt).debt = max (dt.debt - amt) 0 ∧
    0 ≤ (dt.pay amt).debt ∧
    (dt.pay amt).loss = dt.loss ∧
    (dt.pay amt).max_debt = dt.max_debt :=
  ⟨rfl, le_max_right _ _, rfl, rfl⟩

/-! ### Arena growth arithmetic -/

theorem growSize_ge (ps e : ℕ) : e * ps ≤ growSize ps e := by
  unfold growSize ANON_SIZE_CLICK
  have hdm := Nat.div_add_mod (e * ps + 2 ^ 30 - 1) (2 ^ 30)
  have hlt : (e * ps + 2 ^ 30 - 1) % 2 ^ 30 < 2 ^ 30 :=
    Nat.mod_lt _ (by norm_num)
  omega

theorem growSize_dvd (ps e : ℕ) : ANON_SIZE_CLICK ∣ growSize ps e := by
  unfold growSize
  exact dvd_mul_left _ _

theorem growSize_min (ps e m : ℕ) (hdvd : ANON_SIZE_CLICK ∣ m)
    (hm : e * ps ≤ m) : growSize ps e ≤ m := by
  obtain ⟨t, ht⟩ := hdvd
  subst ht
  unfold growSize ANON_SIZE_CLICK at *
  have hdm := Nat.div_add_mod (e * ps + 2 ^ 30 - 1) (2 ^ 30)
  have hlt : (e * ps + 2 ^ 30 - 1) % 2 ^ 30 < 2 ^ 30 :=
    Nat.mod_lt _ (by norm_num)
  omega

/-- C8: when the prospective write window exceeds the arena capacity, the
writer resizes the arena to
`((end_page * ps) + ANON_SIZE_CLICK - 1) / ANON_SIZE_CLICK * ANON_SIZE_CLICK`,
which is the least multiple of `ANON_SIZE_CLICK` (1 GiB) at or above the
needed `end_page * ps` bytes. -/
theorem grow_to_next_gib (ps : ℕ) (s : WState) (e : ℕ)
    (h : s.size < e * ps) :
    growIfNeeded ps s e = { size := growSize ps e, wpage := s.wpage } ∧
    ANON_SIZE_CLICK ∣ growSize ps e ∧
    e * ps ≤ growSize ps e ∧
    ∀ m, ANON_SIZE_CLICK ∣ m → e * ps ≤ m → growSize ps e ≤ m := by
  refine ⟨?_, growSize_dvd ps e, growSize_ge ps e,
    fun m hd hm => growSize_min ps e m hd hm⟩
  unfold growIfNeeded
  rw [if_pos h]

/-- Closed instance of `grow_to_next_gib`. -/
theorem grow_to_next_gib_witness :
    initWState.size < 300001 * 4096 ∧
    growIfNeeded 4096 initWState 300001 =
      { size := growSize 4096 300001, wpage := initWState.wpage } :=
  ⟨by norm_num [initWState, ANON_SIZE_CLICK],
   (grow_to_next_gib 4096 initWState 300001
      (by norm_num [initWState, ANON_SIZE_CLICK])).1⟩

/-! ### Writer high-water invariant -/

theorem growIfNeeded_wpage (ps : ℕ) (s : WState) (e : ℕ) :
    (growIfNeeded ps s e).wpage = s.wpage := by
  unfold growIfNeeded
  split <;> rfl

theorem growIfNeeded_covers (ps : ℕ) (s : WState) (e : ℕ) :
    e * ps ≤ (growIfNeeded ps s e).size := by
  unfold growIfNeeded
  split
  · exact growSize_ge ps e
  · rename_i h
    push_neg at h
    exact h

theorem growIfNeeded_size_ge (ps : ℕ) (s : WState) (e : ℕ) :
    s.wpage * ps ≤ e * ps → s.wpage * ps ≤ (growIfNeeded ps s e).size := by
  intro h
  unfold growIfNeeded
  split
  · exact le_trans h (growSize_ge ps e)
  · rename_i hs
    push_neg at hs
    exact le_trans h hs

theorem writerIterObs_inv (ps : ℕ) (s : WState) (q : ℕ) (h : WInv ps s) :
    ∀ o ∈ writerIterObs ps s q, WInv ps o := by
  intro o ho
  have hle : s.wpage * ps ≤ (s.wpage + q) * ps :=
    Nat.mul_le_mul_right ps (Nat.le_add_right _ _)
  simp only [writerIterObs, List.mem_cons, List.not_mem_nil, or_false] at ho
  rcases ho with rfl | rfl | rfl
  · exact h
  · unfold WInv
    rw [growIfNeeded_wpage]
    exact growIfNeeded_size_ge ps s _ hle
  · unfold WInv writerIter
    exact growIfNeeded_covers ps s _

theorem writerIter_inv (ps : ℕ) (s : WState) (q : ℕ) (h : WInv ps s) :
    WInv ps (writerIter ps s q) := by
  unfold WInv writerIter
  exact growIfNeeded_covers ps s _

/-- C1: the high-water invariant `wpage_pos * page_size ≤ arena.size()`
holds at every observation point along any sequence of writer iterations:
the arena is grown before the counter store, so the intermediate states
(entry, post-growth, post-store) all satisfy it. -/
theorem writer_highwater_invariant (ps : ℕ) (s : WState) (qs : List ℕ)
    (h : WInv ps s) : ∀ o ∈ writerTraceObs ps s qs, WInv ps o := by
  induction qs generalizing s with
  | nil =>
    intro o ho
    simp only [writerTraceObs, List.mem_singleton] at ho
    subst ho
    exact h
  | cons q rest ih =>
    intro o ho
    simp only [writerTraceObs, List.mem_append] at ho
    rcases ho with ho | ho
    · exact writerIterObs_inv ps s q h o ho
    · exact ih (writerIter ps s q) (writerIter_inv ps s q h) o ho

/-- Closed instance of `writer_highwater_invariant`. -/
theorem writer_highwater_witness :
    WInv 4096 initWState ∧
    ∀ o ∈ writerTraceObs 4096 initWState [1, 300000], WInv 4096 o :=
  ⟨by decide,
   writer_highwater_invariant 4096 initWState [1, 300000] (by decide)⟩

/-! ### Orchestrator with zero readers -/

/-- C10: with `nr_readers = 0` the per-reader rate computation is total
(the float division by zero and saturating cast are well-defined) and no
reader thread is spawned, whatever the resolved read rate; only the writer
(when `wbps > 0`) runs. -/
theorem spawn_zero_readers (wbps rbps : ℕ) :
    spawnPlan wbps rbps 0 = (if 0 < wbps then [ThreadKind.writer] else []) ∧
    (∀ i, ThreadKind.reader i ∉ spawnPlan wbps rbps 0) ∧
    perReaderRate rbps 0 = (if rbps = 0 then 0 else USIZE_MAX) := by
  refine ⟨?_, ?_, by unfold perReaderRate; rw [if_pos rfl]⟩
  · unfold spawnPlan
    simp
  · intro i
    unfold spawnPlan
    simp

/-! ### Quantum sizing -/

/-- The claim's value `min(debt * bps, MAX_WRITE) / page_size` in whole
pages differs from the code: the code rounds `debt * bps` to the nearest
byte before the division. At `ps = 4096`, `bps = 10`,
`debt = 20479/25` (so `debt * bps = 8191.6`) the code rounds to 8192 bytes
and returns 2 pages, while `min(debt * bps, MAX_WRITE) / page_size`
truncated is 1 page, even though `debt * bps ≥ page_size`. -/
theorem quantum_sizing_counterexample :
    debt_bps_to_nr_pages_or_sleep 4096 (20479 / 25) 10 = PaceResult.work 2 ∧
    (⌊min ((20479 / 25 : ℚ) * 10) (MAX_WRITE : ℚ) / 4096⌋).toNat = 1 ∧
    (4096 : ℚ) ≤ (20479 / 25 : ℚ) * 10 ∧ (2 : ℕ) ≠ 1 := by
  refine ⟨?_, ?_, by norm_num, by norm_num⟩
  · have hr : roundQ ((20479 / 25 : ℚ) * ((10 : ℕ) : ℚ)) = 8192 :=
      roundQ_eval _ 8192 (by norm_num) (by norm_num) (by norm_num)
    unfold debt_bps_to_nr_pages_or_sleep
    rw [hr]
    norm_num [MAX_WRITE]
    decide
  · have hm : min ((20479 / 25 : ℚ) * 10) ((MAX_WRITE : ℕ) : ℚ) =
        (20479 / 25 : ℚ) * 10 := by
      rw [min_eq_left]
      norm_num [MAX_WRITE]
    rw [hm]
    have hf : ⌊((20479 / 25 : ℚ) * 10) / 4096⌋ = 1 :=
      Int.floor_eq_iff.mpr ⟨by norm_num, by norm_num⟩
    rw [hf]
    rfl

/-- C4 (amended): for `bps > 0`, zero debt performs no work and sleeps
exactly `ps / bps` seconds; when `debt * bps ≥ ps` the result is
`min(round(debt * bps), MAX_WRITE) / ps` pages (the code rounds the byte
budget to the nearest integer before the whole-page division); and any
returned page count never exceeds `MAX_WRITE / ps`. -/
theorem quantum_sizing (ps bps : ℕ) (debt : ℚ) (hps : 0 < ps)
    (hbps : 0 < bps) :
    (debt = 0 → debt_bps_to_nr_pages_or_sleep ps debt bps =
      PaceResult.sleep ((ps : ℚ) / (bps : ℚ))) ∧
    ((ps : ℚ) ≤ debt * (bps : ℚ) →
      debt_bps_to_nr_pages_or_sleep ps debt bps =
        PaceResult.work (min (roundQ (debt * (bps : ℚ))).toNat MAX_WRITE / ps)) ∧
    (∀ n, debt_bps_to_nr_pages_or_sleep ps debt bps = PaceResult.work n →
      n ≤ MAX_WRITE / ps) := by
  refine ⟨?_, ?_, ?_⟩
  · intro h0
    subst h0
    have hz : roundQ ((0 : ℚ) * (bps : ℚ)) = 0 := by
      rw [zero_mul]
      unfold roundQ
      norm_num
    unfold debt_bps_to_nr_pages_or_sleep
    rw [hz]
    simp [hps]
  · intro hbig
    have h1 : (ps : ℤ) ≤ roundQ (debt * (bps : ℚ)) := by
      have := roundQ_mono hbig
      rwa [roundQ_intCast ps] at this
    have h2 : ps ≤ (roundQ (debt * (bps : ℚ))).toNat := by omega
    unfold debt_bps_to_nr_pages_or_sleep
    rw [if_neg (by omega)]
  · intro n hn
    unfold debt_bps_to_nr_pages_or_sleep at hn
    by_cases hc : (roundQ (debt * (bps : ℚ))).toNat < ps
    · rw [if_pos hc] at hn
      exact absurd hn (by simp)
    · rw [if_neg hc] at hn
      have := PaceResult.work.inj hn
      subst this
      exact Nat.div_le_div_right (min_le_right _ _)

/-- Closed instance of `quantum_sizing`. -/
theorem quantum_sizing_witness :
    (0 : ℕ) < 4096 ∧ (0 : ℕ) < 4096 ∧
    ((1 : ℚ) = 0 → debt_bps_to_nr_pages_or_sleep 4096 1 4096 =
      PaceResult.sleep ((4096 : ℚ) / (4096 : ℚ))) :=
  ⟨by norm_num, by norm_num,
   (quantum_sizing 4096 4096 1 (by norm_num) (by norm_num)).1⟩

/-! ### Reader empty-window iteration -/

theorem bnd_T_zero (N i : ℕ) : bnd 0 N i = 0 := by
  unfold bnd
  exact Nat.min_zero _

theorem nrw_T_zero (i N : ℕ) : nrw 0 i N = 0 := by
  unfold nrw
  rw [bnd_T_zero, bnd_T_zero]

theorem update_one_eval :
    ({ debt := 1, max_debt := 5, loss := 0, last_at := 0 } :
      DebtTracker).update 0 =
    ({ debt := 1, max_debt := 5, loss := 0, last_at := 0 }, 1) := by
  unfold DebtTracker.update DebtTracker.elapsed
  norm_num

theorem quantum_one_eval :
    debt_bps_to_nr_pages_or_sleep 4096 1 4096 = PaceResult.work 1 := by
  have hr : roundQ ((1 : ℚ) * ((4096 : ℕ) : ℚ)) = 4096 :=
    roundQ_eval _ 4096 (by norm_num) (by norm_num) (by norm_num)
  unfold debt_bps_to_nr_pages_or_sleep
  rw [hr]
  norm_num [MAX_WRITE]
  decide

/-- The claim that an empty page window leaves the reader's debt unchanged
fails on the code: `pay` is outside the `if nr_range_pages > 0` branch, so
the ledger is paid even when the window is empty. Concretely: one reader
(`i = 0` of `N = 1`), `ps = rbps = 4096`, nothing written (`T = 0`, so
`nr_range_pages = 0`), debt 1 after `update` yields a 1-page quantum, and
the iteration drops the debt from 1 to 0. -/
theorem reader_empty_window_counterexample :
    nrw 0 0 1 = 0 ∧
    (readerLedgerIter 4096 0 1 4096
      { debt := 1, max_debt := 5, loss := 0, last_at := 0 } 0 0 0).2.1.debt = 1 ∧
    (readerLedgerIter 4096 0 1 4096
      { debt := 1, max_debt := 5, loss := 0, last_at := 0 } 0 0 0).1.debt = 0 ∧
    (1 : ℚ) ≠ 0 := by
  refine ⟨nrw_T_zero 0 1, ?_, ?_, by norm_num⟩
  · simp only [readerLedgerIter, update_one_eval, quantum_one_eval]
  · simp only [readerLedgerIter, update_one_eval, quantum_one_eval,
      readerIter, nrw_T_zero, lt_self_iff_false, if_false, DebtTracker.pay]
    norm_num

/-- C2 (amended): in a reader iteration whose computed window is empty, no
page is accessed and the cursor is unchanged, and `loss` is not changed
after `update()`; but the ledger is still paid for the skipped quantum:
the debt drops to `max(debt_after_update - q * ps / rbps, 0)`. -/
theorem reader_empty_window_skips_but_pays (ps i N rbps : ℕ)
    (dt : DebtTracker) (now : ℚ) (T p q : ℕ)
    (hwin : nrw T i N = 0)
    (hq : debt_bps_to_nr_pages_or_sleep ps (dt.update now).2 rbps =
      PaceResult.work q) :
    (readerLedgerIter ps i N rbps dt now T p).2.2.2 = [] ∧
    (readerLedgerIter ps i N rbps dt now T p).2.2.1 = p ∧
    (readerLedgerIter ps i N rbps dt now T p).1.loss =
      (dt.update now).1.loss ∧
    (readerLedgerIter ps i N rbps dt now T p).1.debt =
      max ((dt.update now).1.debt - ((q * ps : ℕ) : ℚ) / (rbps : ℚ)) 0 := by
  simp only [readerLedgerIter, hq, readerIter, hwin, lt_self_iff_false,
    if_false, DebtTracker.pay]
  exact ⟨trivial, trivial, trivial, trivial⟩

/-- Closed instance of `reader_empty_window_skips_but_pays`. -/
theorem reader_empty_window_witness :
    nrw 0 0 1 = 0 ∧
    (readerLedgerIter 4096 0 1 4096
      { debt := 1, max_debt := 5, loss := 0, last_at := 0 } 0 0 0).2.2.2 = [] :=
  ⟨nrw_T_zero 0 1,
   (reader_empty_window_skips_but_pays 4096 0 1 4096
      { debt := 1, max_debt := 5, loss := 0, last_at := 0 } 0 0 0 1
      (nrw_T_zero 0 1)
      (by rw [update_one_eval]; exact quantum_one_eval)).1⟩

/-! ### Reader window partition -/

theorem bnd_le (T N i : ℕ) : bnd T N i ≤ T := Nat.min_le_right _ _

theorem bnd_mono (T N : ℕ) {i j : ℕ} (hij : i ≤ j) :
    bnd T N i ≤ bnd T N j := by
  unfold bnd
  have harg : (T : ℚ) * ((i : ℚ) * (1 / (N : ℚ))) ≤
      (T : ℚ) * ((j : ℚ) * (1 / (N : ℚ))) := by
    apply mul_le_mul_of_nonneg_left _ (by positivity)
    apply mul_le_mul_of_nonneg_right _ (by positivity)
    exact_mod_cast hij
  have hr := roundQ_mono harg
  exact min_le_min (by omega) (le_refl T)

theorem roundQ_zero : roundQ 0 = 0 :=
  roundQ_eval 0 0 (le_refl 0) (by norm_num) (by norm_num)

theorem bnd_zero (T N : ℕ) : bnd T N 0 = 0 := by
  unfold bnd
  rw [show ((T : ℚ) * ((0 : ℕ) * (1 / (N : ℚ)))) = 0 by push_cast; ring]
  rw [roundQ_zero]
  simp

theorem bnd_self (T N : ℕ) (hN : 1 ≤ N) : bnd T N N = T := by
  unfold bnd
  have hNz : ((N : ℚ)) ≠ 0 := Nat.cast_ne_zero.mpr (by omega)
  rw [show ((T : ℚ) * ((N : ℚ) * (1 / (N : ℚ)))) = (T : ℚ) by
    field_simp]
  rw [roundQ_intCast]
  simp

/-- C5: for `N ≥ 1` readers, the absolute windows
`[bnd T N i, bnd T N (i+1))` (i.e. `[round(T*i/N) min T, round(T*(i+1)/N)
min T)`) are pairwise non-overlapping and their union covers exactly
`[0, T)`. -/
theorem reader_windows_partition (N T : ℕ) (hN : 1 ≤ N) :
    (∀ i j, i < N → j < N → i ≠ j →
      ∀ k, bnd T N i ≤ k → k < bnd T N (i + 1) →
        ¬(bnd T N j ≤ k ∧ k < bnd T N (j + 1))) ∧
    (∀ k, k < T ↔ ∃ i, i < N ∧ bnd T N i ≤ k ∧ k < bnd T N (i + 1)) := by
  constructor
  · intro i j hi hj hne k hik hik2 ⟨hjk, hjk2⟩
    rcases Nat.lt_or_ge i j with hlt | hge
    · have : bnd T N (i + 1) ≤ bnd T N j := bnd_mono T N hlt
      omega
    · have hlt : j < i := lt_of_le_of_ne hge (Ne.symm hne)
      have : bnd T N (j + 1) ≤ bnd T N i := bnd_mono T N hlt
      omega
  · intro k
    constructor
    · intro hk
      have hP0 : bnd T N 0 ≤ k := by rw [bnd_zero]; exact Nat.zero_le k
      set i0 := Nat.findGreatest (fun i => bnd T N i ≤ k) N with hi0
      have hspec : bnd T N i0 ≤ k :=
        @Nat.findGreatest_spec 0 (fun i => bnd T N i ≤ k) _ N
          (Nat.zero_le N) hP0
      have hle : i0 ≤ N := Nat.findGreatest_le N
      have hiN : i0 < N := by
        rcases Nat.lt_or_ge i0 N with h | h
        · exact h
        · exfalso
          have : i0 = N := le_antisymm hle h
          rw [this, bnd_self T N hN] at hspec
          omega
      have hnext : ¬ bnd T N (i0 + 1) ≤ k :=
        @Nat.findGreatest_is_greatest (i0 + 1) (fun i => bnd T N i ≤ k) _ N
          (Nat.lt_succ_self i0) hiN
      exact ⟨i0, hiN, hspec, by omega⟩
    · rintro ⟨i, hi, hik, hik2⟩
      have := bnd_le T N (i + 1)
      omega

/-- Closed instance of `reader_windows_partition`. -/
theorem reader_windows_partition_witness :
    (1 : ℕ) ≤ 2 ∧
    ∀ k, k < 5 ↔ ∃ i, i < 2 ∧ bnd 5 2 i ≤ k ∧ k < bnd 5 2 (i + 1) :=
  ⟨by norm_num, (reader_windows_partition 2 5 (by norm_num)).2⟩

/-! ### Reader in-bounds safety -/

theorem bnd_cast_upper (T N i : ℕ) :
    (bnd T N i : ℚ) ≤ (T : ℚ) * ((i : ℚ) * (1 / (N : ℚ))) + 1 / 2 := by
  set x : ℚ := (T : ℚ) * ((i : ℚ) * (1 / (N : ℚ))) with hx
  have hx0 : 0 ≤ x := by rw [hx]; positivity
  have hr0 : 0 ≤ roundQ x := by
    rw [roundQ_nonneg _ hx0]
    exact Int.floor_nonneg.mpr (by linarith)
  have h1 : (bnd T N i : ℚ) ≤ ((roundQ x).toNat : ℚ) := by
    exact_mod_cast Nat.min_le_left _ T
  have h2 : ((roundQ x).toNat : ℚ) = ((roundQ x : ℤ) : ℚ) := by
    exact_mod_cast Int.toNat_of_nonneg hr0
  have h3 : ((roundQ x : ℤ) : ℚ) ≤ x + 1 / 2 := by
    rw [roundQ_nonneg _ hx0]
    exact Int.floor_le _
  linarith

theorem bnd_cast_lower (T N i : ℕ) (hN : 1 ≤ N) (hi : i ≤ N) :
    (T : ℚ) * ((i : ℚ) * (1 / (N : ℚ))) - 1 / 2 ≤ (bnd T N i : ℚ) := by
  set x : ℚ := (T : ℚ) * ((i : ℚ) * (1 / (N : ℚ))) with hx
  have hx0 : 0 ≤ x := by rw [hx]; positivity
  have hNpos : (0 : ℚ) < (N : ℚ) := by exact_mod_cast hN
  have hfrac : (i : ℚ) * (1 / (N : ℚ)) ≤ 1 := by
    rw [mul_one_div]
    rw [div_le_one hNpos]
    exact_mod_cast hi
  have hxT : x ≤ (T : ℚ) := by
    rw [hx]
    calc (T : ℚ) * ((i : ℚ) * (1 / (N : ℚ))) ≤ (T : ℚ) * 1 :=
      mul_le_mul_of_nonneg_left hfrac (by positivity)
    _ = (T : ℚ) := mul_one _
  have hcast : (bnd T N i : ℚ) =
      min (((roundQ x).toNat : ℚ)) ((T : ℚ)) := by
    unfold bnd
    rw [← hx]
    push_cast
    rfl
  have ha : x - 1 / 2 ≤ ((roundQ x).toNat : ℚ) := by
    have h1 : ((roundQ x : ℤ) : ℚ) ≤ ((roundQ x).toNat : ℚ) := by
      exact_mod_cast Int.self_le_toNat _
    have h2 : x + 1 / 2 - 1 < ((roundQ x : ℤ) : ℚ) := by
      rw [roundQ_nonneg _ hx0]
      exact Int.sub_one_lt_floor _
    linarith
  rw [hcast]
  exact le_min ha (by linarith)

/-- Key arithmetic fact behind reader safety: if the cursor `p` was in
range for this reader's window at some earlier (not larger) high-water
`Tp`, then the first access `bnd T N i + p` of an iteration at high-water
`T` stays strictly below `T`. -/
theorem cursor_access_lt (i N Tp T p : ℕ) (hi : i < N) (hTp : Tp ≤ T)
    (hp : p < nrw Tp i N) : bnd T N i + p < T := by
  have hN : 1 ≤ N := by omega
  have hmono : bnd Tp N i ≤ bnd Tp N (i + 1) := bnd_mono Tp N (by omega)
  have hbp : bnd Tp N (i + 1) ≤ Tp := bnd_le Tp N (i + 1)
  unfold nrw at hp
  rcases Nat.eq_or_lt_of_le hTp with rfl | hlt
  · -- same high-water: the window is unchanged and `p` is in range
    have := bnd_le Tp N (i + 1)
    omega
  · -- strictly larger high-water: rational estimate
    have hup : (bnd T N i : ℚ) ≤
        (T : ℚ) * ((i : ℚ) * (1 / (N : ℚ))) + 1 / 2 := bnd_cast_upper T N i
    have hlo : (Tp : ℚ) * ((i : ℚ) * (1 / (N : ℚ))) - 1 / 2 ≤
        (bnd Tp N i : ℚ) := bnd_cast_lower Tp N i hN (by omega)
    have hpq : (bnd Tp N i : ℚ) + (p : ℚ) + 1 ≤ (bnd Tp N (i + 1) : ℚ) := by
      exact_mod_cast show bnd Tp N i + p + 1 ≤ bnd Tp N (i + 1) by omega
    have hbpq : (bnd Tp N (i + 1) : ℚ) ≤ (Tp : ℚ) := by exact_mod_cast hbp
    have hfrac1 : (i : ℚ) * (1 / (N : ℚ)) < 1 := by
      rw [mul_one_div]
      rw [div_lt_one (by exact_mod_cast hN)]
      exact_mod_cast hi
    have hfrac0 : 0 ≤ (i : ℚ) * (1 / (N : ℚ)) := by positivity
    have hTT : (0 : ℚ) < (T : ℚ) - (Tp : ℚ) := by
      have : (Tp : ℚ) < (T : ℚ) := by exact_mod_cast hlt
      linarith
    have hprod : ((T : ℚ) - (Tp : ℚ)) * ((i : ℚ) * (1 / (N : ℚ))) <
        ((T : ℚ) - (Tp : ℚ)) * 1 :=
      mul_lt_mul_of_pos_left hfrac1 hTT
    have hfinal : (bnd T N i : ℚ) + (p : ℚ) < (T : ℚ) := by nlinarith
    exact_mod_cast hfinal

/-- The persistent-cursor invariant a reader maintains between iterations:
either the cursor is still at its initial 0, or it was strictly inside
this reader's window at some high-water value not larger than the current
one. -/
def GoodCursor (i N T p : ℕ) : Prop := p = 0 ∨ ∃ Tp, Tp ≤ T ∧ p < nrw Tp i N

theorem goodCursor_mono {i N T T' p : ℕ} (h : GoodCursor i N T p)
    (hT : T ≤ T') : GoodCursor i N T' p := by
  rcases h with h | ⟨Tp, h1, h2⟩
  · exact Or.inl h
  · exact Or.inr ⟨Tp, le_trans h1 hT, h2⟩

theorem goodCursor_access {i N T p : ℕ} (hi : i < N)
    (hg : GoodCursor i N T p) (hnr : 0 < nrw T i N) : bnd T N i + p < T := by
  rcases hg with rfl | ⟨Tp, h1, h2⟩
  · have := bnd_le T N (i + 1)
    unfold nrw at hnr
    omega
  · exact cursor_access_lt i N Tp T p hi h1 h2

theorem readLoop_idx_lt (a nr T : ℕ) (hwin : a + nr ≤ T) (hnr : 0 < nr) :
    ∀ q p, a + p < T → ∀ pr ∈ (readLoop a nr p q).1, pr.1 < T := by
  intro q
  induction q with
  | zero =>
    intro p hp pr hpr
    simp [readLoop] at hpr
  | succ q ih =>
    intro p hp pr hpr
    simp only [readLoop, List.mem_cons] at hpr
    rcases hpr with rfl | hpr
    · exact hp
    · refine ih ((p + 1) % nr) ?_ pr hpr
      have : (p + 1) % nr < nr := Nat.mod_lt _ hnr
      omega

theorem readLoop_cursor (a nr : ℕ) (hnr : 0 < nr) :
    ∀ q p, (readLoop a nr p q).2 = p ∨ (readLoop a nr p q).2 < nr := by
  intro q
  induction q with
  | zero => intro p; exact Or.inl rfl
  | succ q ih =>
    intro p
    have h2 : (readLoop a nr p (q + 1)).2 =
        (readLoop a nr ((p + 1) % nr) q).2 := rfl
    rcases ih ((p + 1) % nr) with h | h
    · rw [h2, h]
      exact Or.inr (Nat.mod_lt _ hnr)
    · rw [h2]
      exact Or.inr h

theorem readerIter_safe (i N T p q : ℕ) (hi : i < N)
    (hg : GoodCursor i N T p) :
    (∀ pr ∈ (readerIter i N T p q).1, pr.1 < T) ∧
    GoodCursor i N T (readerIter i N T p q).2 := by
  unfold readerIter
  by_cases hnr : 0 < nrw T i N
  · rw [if_pos hnr]
    have hwin : bnd T N i + nrw T i N ≤ T := by
      have h1 : bnd T N i ≤ bnd T N (i + 1) := bnd_mono T N (by omega)
      have h2 : bnd T N (i + 1) ≤ T := bnd_le T N (i + 1)
      unfold nrw
      omega
    have hfirst : bnd T N i + p < T := goodCursor_access hi hg hnr
    refine ⟨readLoop_idx_lt _ _ T hwin hnr q p hfirst, ?_⟩
    rcases readLoop_cursor (bnd T N i) (nrw T i N) hnr q p with h | h
    · rw [h]
      exact hg
    · exact Or.inr ⟨T, le_refl T, h⟩
  · rw [if_neg hnr]
    exact ⟨fun pr hpr => absurd hpr (List.not_mem_nil pr), hg⟩

theorem readerTrace_safe (i N : ℕ) (hi : i < N) :
    ∀ (iters : List (ℕ × ℕ)) (p T0 : ℕ), GoodCursor i N T0 p →
      List.Chain (fun a b => a ≤ b) T0 (iters.map Prod.fst) →
      ∀ e ∈ readerTraceAcc i N p iters, e.2.1 < e.1 := by
  intro iters
  induction iters with
  | nil =>
    intro p T0 _ _ e he
    simp [readerTraceAcc] at he
  | cons it rest ih =>
    intro p T0 hg hchain
    obtain ⟨T, q⟩ := it
    simp only [List.map_cons] at hchain
    cases hchain with
    | cons hT0T hchain =>
      have hgT : GoodCursor i N T p := goodCursor_mono hg hT0T
      have hsafe := readerIter_safe i N T p q hi hgT
      intro e he
      simp only [readerTraceAcc, List.mem_append, List.mem_map] at he
      rcases he with ⟨pr, hpr, rfl⟩ | he
      · exact hsafe.1 pr hpr
      · exact ih (readerIter i N T p q).2 T hsafe.2 hchain e he

/-- C9 (amended): assuming the high-water values observed across a
reader's iterations never decrease, every page access of reader `i` of `N`
(starting with cursor 0) has index `page_range.0 + page_pos` strictly
below the high-water value read in that iteration. (The claim's stronger
"equivalently `page_pos < nr_range_pages` at every access" form fails: see
the counterexample.) -/
theorem reader_access_below_highwater (i N : ℕ) (iters : List (ℕ × ℕ))
    (hi : i < N)
    (hmono : List.Chain' (fun a b => a ≤ b) (iters.map Prod.fst)) :
    ∀ e ∈ readerTraceAcc i N 0 iters, e.2.1 < e.1 := by
  cases iters with
  | nil =>
    intro e he
    simp [readerTraceAcc] at he
  | cons it rest =>
    refine readerTrace_safe i N hi (it :: rest) 0 it.1 (Or.inl rfl) ?_
    simp only [List.map_cons]
    exact List.Chain.cons (le_refl it.1) hmono

theorem bnd_4_3_1 : bnd 4 3 1 = 1 := by
  unfold bnd
  rw [roundQ_eval _ 1 (by norm_num) (by norm_num) (by norm_num)]
  decide

theorem bnd_4_3_2 : bnd 4 3 2 = 3 := by
  unfold bnd
  rw [roundQ_eval _ 3 (by norm_num) (by norm_num) (by norm_num)]
  decide

theorem bnd_5_3_1 : bnd 5 3 1 = 2 := by
  unfold bnd
  rw [roundQ_eval _ 2 (by norm_num) (by norm_num) (by norm_num)]
  decide

theorem bnd_5_3_2 : bnd 5 3 2 = 3 := by
  unfold bnd
  rw [roundQ_eval _ 3 (by norm_num) (by norm_num) (by norm_num)]
  decide

theorem nrw_4_1_3 : nrw 4 1 3 = 2 := by
  unfold nrw
  rw [bnd_4_3_1, bnd_4_3_2]

theorem nrw_5_1_3 : nrw 5 1 3 = 1 := by
  unfold nrw
  rw [bnd_5_3_1, bnd_5_3_2]

/-- The claim's "equivalently the persistent cursor satisfies
`page_pos < nr_range_pages` at every access in a non-empty window" fails:
for reader 1 of 3 with the high-water page growing 4 → 5 the window
shrinks from `[1,3)` (2 pages) to `[2,3)` (1 page); after one access at
high-water 4 the cursor is 1, and the first access at high-water 5
happens in a non-empty window with cursor `1 ≥ nr_range_pages = 1`
(although its index 3 is still below the high-water 5). -/
theorem reader_cursor_counterexample :
    List.Chain' (fun a b => a ≤ b)
      (([((4 : ℕ), (1 : ℕ)), (5, 1)]).map Prod.fst) ∧
    readerTraceAcc 1 3 0 [(4, 1), (5, 1)] = [(4, 1, 0), (5, 3, 1)] ∧
    0 < nrw 5 1 3 ∧ ¬ ((1 : ℕ) < nrw 5 1 3) ∧ (3 : ℕ) < 5 := by
  refine ⟨List.Chain.cons (by norm_num) List.Chain.nil, ?_,
    by rw [nrw_5_1_3]; decide, by rw [nrw_5_1_3]; decide, by decide⟩
  simp only [readerTraceAcc, readerIter, readLoop, nrw_4_1_3, nrw_5_1_3,
    bnd_4_3_1, bnd_5_3_1]
  norm_num

/-- Closed instance of `reader_access_below_highwater`. -/
theorem reader_access_witness :
    (1 : ℕ) < 3 ∧
    List.Chain' (fun a b => a ≤ b)
      (([((4 : ℕ), (1 : ℕ)), (5, 1)]).map Prod.fst) ∧
    ∀ e ∈ readerTraceAcc 1 3 0 [(4, 1), (5, 1)], e.2.1 < e.1 :=
  ⟨by norm_num, List.Chain.cons (by norm_num) List.Chain.nil,
   reader_access_below_highwater 1 3 [(4, 1), (5, 1)] (by norm_num)
     (List.Chain.cons (by norm_num) List.Chain.nil)⟩

/-! ### Percentage resolution in `parse_bps` -/

theorem parse_bps_percent_ok (tok key : String) (env : List (String × String))
    (h : tok.data.getLast? = some '%') (pct : ℚ) (v : String) (base : ℕ)
    (hpct : parseF64 tok.data.dropLast = some pct)
    (hfind : envFind env key = some v)
    (hsize : parse_size v = some base) :
    parse_bps tok key env = Except.ok (ratToUsize ((base : ℚ) * pct / 100)) := by
  unfold parse_bps
  rw [if_pos h]
  simp only [hpct, hfind, hsize]

theorem parse_bps_percent_err (tok key : String) (env : List (String × String))
    (h : tok.data.getLast? = some '%') :
    exceptOk (parse_bps tok key env) = false ↔
      (parseF64 tok.data.dropLast = none ∨ envFind env key = none ∨
        ∃ v, envFind env key = some v ∧ parse_size v = none) := by
  unfold parse_bps
  rw [if_pos h]
  rcases hpct : parseF64 tok.data.dropLast with _ | pct
  · simp [exceptOk]
  · rcases hfind : envFind env key with _ | v
    · simp [exceptOk]
    · rcases hsize : parse_size v with _ | base
      · simp [exceptOk, hsize]
      · simp [exceptOk, hsize]

/-- C6: for a token ending in `%`, `parse_bps` returns
`baseline * pct / 100` truncated to an integer when the named baseline is
present in the environment and both numbers parse (in particular `"50%"`
against baseline `"1000"` yields 500), and it returns a configuration
error if and only if the baseline name is absent or either number fails to
parse. -/
theorem parse_bps_percent_spec (tok key : String)
    (env : List (String × String)) (h : tok.data.getLast? = some '%') :
    (∀ (pct : ℚ) (v : String) (base : ℕ),
      parseF64 tok.data.dropLast = some pct →
      envFind env key = some v →
      parse_size v = some base →
      parse_bps tok key env =
        Except.ok (ratToUsize ((base : ℚ) * pct / 100))) ∧
    (exceptOk (parse_bps tok key env) = false ↔
      (parseF64 tok.data.dropLast = none ∨ envFind env key = none ∨
        ∃ v, envFind env key = some v ∧ parse_size v = none)) ∧
    parse_bps "50%" "BASE" [("BASE", "1000")] = Except.ok 500 := by
  refine ⟨fun pct v base hpct hfind hsize =>
      parse_bps_percent_ok tok key env h pct v base hpct hfind hsize,
    parse_bps_percent_err tok key env h, ?_⟩
  have happ := parse_bps_percent_ok "50%" "BASE" [("BASE", "1000")]
    (by decide) ((50 : ℕ) : ℚ) "1000" 1000
    (by simp [parseF64, splitDot, digitsVal]) (by decide) (by decide)
  rw [happ]
  have hval : ratToUsize (((1000 : ℕ) : ℚ) * ((50 : ℕ) : ℚ) / 100) = 500 := by
    unfold ratToUsize
    rw [if_neg (by norm_num)]
    have hq : (((1000 : ℕ) : ℚ) * ((50 : ℕ) : ℚ) / 100) = ((500 : ℤ) : ℚ) := by
      norm_num
    rw [hq, Int.floor_intCast]
    decide
  rw [hval]

/-- Closed instance of `parse_bps_percent_spec`. -/
theorem parse_bps_percent_witness :
    "50%".data.getLast? = some '%' ∧
    parse_bps "50%" "BASE" [("BASE", "1000")] = Except.ok 500 :=
  ⟨by decide,
   (parse_bps_percent_spec "50%" "BASE" [("BASE", "1000")] (by decide)).2.2⟩

end MemHog
